import Mathlib

/-
  Verification of the Skull and Roses game engine
  (src/skull_and_roses_game.py) against its specification.

  Shallow embedding conventions:
  * Cards carry no identity beyond their tag (the Python `Card` class has no
    `__eq__`, so `in`/`remove` use object identity; since all cards of one tag
    are interchangeable for the rules, we model a card as its tag).
  * `played_cards` is stored TOP-FIRST: Python appends to the tail of the list
    and pops from the tail, so the Python tail is our head.  `play_card` conses
    the new card and a reveal pops the head - the most recently played card is
    revealed first, exactly as in the source.
  * Randomness (AI coin flips, uniform choice of a target stack, the choice of
    a random card to lose) is passed in as explicit oracle arguments.
  * Console input is modelled as a list of already-parsed tokens; a decision
    loop that is still waiting for input returns `none` at the outer level.
  * Python exceptions (the ValueError raised by the in-challenge card-count
    check, the ValueError raised by the constructor) become `Except String`.
-/

namespace Skull

inductive CardType where
  | rose
  | skull
deriving DecidableEq, Repr

/-- Per-player statistics dictionary (`Player.stats` in the source). -/
structure Stats where
  challenges_won : Nat
  challenges_lost : Nat
  cards_lost : Nat
  skulls_played : Nat
  roses_played : Nat
deriving DecidableEq, Repr

/-- `Player` from the source: hand, face-down played stack (top-first, see the
    file header), round wins, elimination and pass flags, statistics. -/
structure Player where
  name : String
  is_ai : Bool
  hand : List CardType
  played_cards : List CardType
  rounds_won : Nat
  is_eliminated : Bool
  has_passed : Bool
  stats : Stats
deriving DecidableEq, Repr

/-- Default used for out-of-range list access (never reached on the paths the
    source exercises). -/
def defaultPlayer : Player :=
  { name := "", is_ai := false, hand := [], played_cards := [],
    rounds_won := 0, is_eliminated := false, has_passed := false,
    stats := ⟨0, 0, 0, 0, 0⟩ }

/-- `Player.__init__`: a fresh player holds 3 Roses and 1 Skull. -/
def mkPlayer (name : String) (is_ai : Bool) : Player :=
  { name := name, is_ai := is_ai,
    hand := [CardType.rose, CardType.rose, CardType.rose, CardType.skull],
    played_cards := [],
    rounds_won := 0, is_eliminated := false, has_passed := false,
    stats := ⟨0, 0, 0, 0, 0⟩ }

/-- `Player.play_card`: if the card is in hand, move it to the top of the
    played stack, bump the matching play counter and return True; otherwise
    return False and change nothing. -/
def Player.play_card (p : Player) (card : CardType) : Bool × Player :=
  if card ∈ p.hand then
    let p1 : Player :=
      { p with hand := p.hand.erase card, played_cards := card :: p.played_cards }
    let p2 : Player :=
      if card = CardType.skull then
        { p1 with stats := { p1.stats with skulls_played := p1.stats.skulls_played + 1 } }
      else
        { p1 with stats := { p1.stats with roses_played := p1.stats.roses_played + 1 } }
    (true, p2)
  else (false, p)

/-- `Player.retrieve_cards`: all played cards return to hand. -/
def Player.retrieve_cards (p : Player) : Player :=
  { p with hand := p.hand ++ p.played_cards, played_cards := [] }

/-- `Player.lose_chosen_card`: remove the given card from hand (if present),
    count it as permanently lost, eliminate the player on an empty hand. -/
def Player.lose_chosen_card (p : Player) (card : CardType) : Player × Option CardType :=
  if card ∈ p.hand then
    let h := p.hand.erase card
    ({ p with hand := h,
              stats := { p.stats with cards_lost := p.stats.cards_lost + 1 },
              is_eliminated := if h = [] then true else p.is_eliminated },
     some card)
  else (p, none)

/-- `Player.lose_random_card`: `random.choice` is modelled by the oracle index
    `r`; removing the chosen element is multiset-equal to erasing its tag. -/
def Player.lose_random_card (p : Player) (r : Nat) : Player × Option CardType :=
  match p.hand with
  | [] => (p, none)
  | _ :: _ =>
    let card := p.hand.getD (r % p.hand.length) CardType.rose
    let h := p.hand.erase card
    ({ p with hand := h,
              stats := { p.stats with cards_lost := p.stats.cards_lost + 1 },
              is_eliminated := if h = [] then true else p.is_eliminated },
     some card)

/-- `Player.reset_for_new_round`. -/
def Player.reset_for_new_round (p : Player) : Player :=
  { p with has_passed := false }

/-- Cards in hand plus cards on the stack plus permanently lost cards
    (`stats['cards_lost']`): the conserved quantity of §8 of the spec. -/
def Player.cardTotal (p : Player) : Nat :=
  p.hand.length + p.played_cards.length + p.stats.cards_lost

inductive GState where
  | initial_placement
  | card_placement
  | bidding
  | challenge
  | game_over
deriving DecidableEq, Repr

/-- `InteractiveSkullGame.game_stats`. -/
structure GameStats where
  total_rounds : Nat
  total_challenges : Nat
  successful_challenges : Nat
  eliminations : Nat
deriving DecidableEq, Repr

/-- `InteractiveSkullGame` state.  The Python `challenger`/`skull_revealer`
    object references become indices into `players`. -/
structure Game where
  players : List Player
  current_player_index : Nat
  game_state : GState
  current_bid : Nat
  challenger : Option Nat
  skull_revealer : Option Nat
  round_number : Nat
  game_stats : GameStats
deriving DecidableEq, Repr

/-- `InteractiveSkullGame.__init__`: rejects fewer than 2 or more than 6
    players with a ValueError.  (`random.shuffle` permutes the list in place;
    the permutation is external randomness and does not affect validity, so
    the given order is used.) -/
def interactiveSkullGame_init (players : List Player) : Except String Game :=
  if players.length < 2 ∨ players.length > 6 then
    .error "Game requires 2-6 players"
  else
    .ok { players := players, current_player_index := 0,
          game_state := .initial_placement, current_bid := 0,
          challenger := none, skull_revealer := none, round_number := 1,
          game_stats := ⟨0, 0, 0, 0⟩ }

/-- `InteractiveSkullGame.total_cards_on_table`. -/
def total_cards_on_table (g : Game) : Nat :=
  ((g.players.filter (fun p => !p.is_eliminated)).map
    (fun p => p.played_cards.length)).sum

/-- Loop body of `InteractiveSkullGame.next_player` (lines 399-408): advance
    modulo the player count, skipping eliminated players.  The source counts
    eliminated probes in `attempts` and gives up once `attempts >= n`; here
    `remaining = n - 1 - attempts` counts the eliminated probes still allowed,
    so the loop performs at most `n` of them, exactly as the source does. -/
def nextPlayerGo (players : List Player) : Nat → Nat → Nat
  | idx, remaining =>
    let idx' := (idx + 1) % players.length
    if ¬(players.getD idx' defaultPlayer).is_eliminated then idx'
    else
      match remaining with
      | 0 => idx'
      | r + 1 => nextPlayerGo players idx' r

/-- `InteractiveSkullGame.next_player` with `attempts` starting at 0. -/
def nextPlayerIdx (players : List Player) (idx : Nat) : Nat :=
  nextPlayerGo players idx (players.length - 1)

/-! ## Challenge resolution (`challenge_phase`, lines 593-651)

The reveal portion of `challenge_phase` is modelled by `revealOwn` (the
mandatory pass over the challenger's own stack, lines 596-620, including the
in-loop card-count check of lines 604-605, whose failure raises a
ValueError) and `revealOthers` (the loop over the other active players'
stacks, lines 622-650).  `resolveChallenge` assembles the two, computing the
eligible target list exactly as line 623 does.  The Python
`random.choice(other_players)` is modelled by the oracle `pick`: at the k-th
iteration the element at position `pick k % len(eligible)` of the current
eligible list is the target. -/

/-- Outcome of the pass over the challenger's own stack: updated challenger,
    cards still owed, whether a skull stopped the pass, cards revealed in
    reveal order. -/
structure OwnResult where
  challenger : Player
  remaining : Nat
  skullHit : Bool
  revealed : List CardType
deriving DecidableEq, Repr

/-- Lines 596-620: pop the top of the challenger's stack into their hand while
    cards are still owed, run the card-count check, stop on a skull. -/
def revealOwn : Player → Nat → Except String OwnResult
  | p, 0 => .ok ⟨p, 0, false, []⟩
  | p, n + 1 =>
    match p.played_cards with
    | [] => .ok ⟨p, n + 1, false, []⟩
    | c :: rest =>
      let p' : Player := { p with hand := p.hand ++ [c], played_cards := rest }
      if p'.hand.length + p'.played_cards.length + p'.stats.challenges_lost ≠ 4 then
        .error "player cannot have more or less than 4 cards total"
      else if c = CardType.skull then
        .ok ⟨p', n, true, [c]⟩
      else
        match revealOwn p' n with
        | .error e => .error e
        | .ok r => .ok ⟨r.challenger, r.remaining, r.skullHit, c :: r.revealed⟩

/-- Outcome of the pass over the other players' stacks: updated player list,
    cards still owed, owner of the fatal skull (if any), reveals in order
    tagged with the owning player's index. -/
structure OthersResult where
  players : List Player
  remaining : Nat
  skullRevealer : Option Nat
  revealed : List (Nat × CardType)
deriving DecidableEq, Repr

/-- Lines 625-650: while cards are owed and eligible stacks remain, pick a
    target, pop its top card into its owner's hand, stop on a skull, drop the
    target from the eligible list once its stack empties.  (An eligible player
    always has a nonempty stack; the `[]` branch is unreachable.) -/
def revealOthers (players : List Player) (eligible : List Nat)
    (pick : Nat → Nat) (step : Nat) : Nat → OthersResult
  | 0 => ⟨players, 0, none, []⟩
  | n + 1 =>
    if eligible = [] then ⟨players, n + 1, none, []⟩
    else
      let ti := eligible.getD (pick step % eligible.length) 0
      let tp := players.getD ti defaultPlayer
      match tp.played_cards with
      | [] => ⟨players, n + 1, none, []⟩
      | c :: rest =>
        let tp' : Player := { tp with hand := tp.hand ++ [c], played_cards := rest }
        let players' := players.set ti tp'
        if c = CardType.skull then
          ⟨players', n, some ti, [(ti, c)]⟩
        else
          let eligible' := if rest = [] then eligible.erase ti else eligible
          let r := revealOthers players' eligible' pick (step + 1) n
          ⟨r.players, r.remaining, r.skullRevealer, (ti, c) :: r.revealed⟩

/-- Overall outcome of the reveal portion of `challenge_phase`. -/
structure ResolveResult where
  players : List Player
  remaining : Nat
  skullRevealer : Option Nat
  revealed : List (Nat × CardType)
deriving DecidableEq, Repr

/-- Lines 593-651: reveal the challenger's own cards first; if no skull
    stopped that pass, reveal from the other active players with nonempty
    stacks (line 623) until the bid is satisfied or a skull appears. -/
def resolveChallenge (g : Game) (ci : Nat) (pick : Nat → Nat) :
    Except String ResolveResult :=
  match revealOwn (g.players.getD ci defaultPlayer) g.current_bid with
  | .error e => .error e
  | .ok own =>
    let players1 := g.players.set ci own.challenger
    if own.skullHit then
      .ok ⟨players1, own.remaining, some ci, own.revealed.map (fun c => (ci, c))⟩
    else
      let eligible := (List.range players1.length).filter
        (fun j => !(j == ci) && !(players1.getD j defaultPlayer).is_eliminated
                  && !(players1.getD j defaultPlayer).played_cards.isEmpty)
      let r := revealOthers players1 eligible pick 0 own.remaining
      .ok ⟨r.players, r.remaining, r.skullRevealer,
           own.revealed.map (fun c => (ci, c)) ++ r.revealed⟩

/-! ## Round lifecycle (`start_new_round`, `handle_successful_challenge`) -/

/-- Indices of the non-eliminated players, in player order (the order
    `get_active_players` yields). -/
def activeIndices (players : List Player) : List Nat :=
  (List.range players.length).filter
    (fun j => !(players.getD j defaultPlayer).is_eliminated)

/-- `len(get_active_players())`. -/
def activeCount (players : List Player) : Nat :=
  (players.filter (fun p => !p.is_eliminated)).length

/-- Lines 738-740: scan from index 0 upward for the first non-eliminated
    player.  The Python loop probes 0, 1, 2, ... so when an active player
    exists (the only situation in which the loop is entered) it returns the
    least active index, which is `findIdx`. -/
def firstActiveIdx (players : List Player) : Nat :=
  players.findIdx (fun p => !p.is_eliminated)

/-- `InteractiveSkullGame.start_new_round` (lines 715-748).  The second
    component models the "wins by elimination" announcement printed when the
    game ends here: `some i` names the declared winner, `none` means no
    winner was declared. -/
def start_new_round (g : Game) : Game × Option Nat :=
  let g1 : Game :=
    { g with round_number := g.round_number + 1,
             game_stats := { g.game_stats with
                             total_rounds := g.round_number + 1 - 1 } }
  let ps := g.players.map Player.reset_for_new_round
  if (activeIndices ps).length ≤ 1 then
    ({ g1 with players := ps, game_state := .game_over }, (activeIndices ps).head?)
  else
    let idx :=
      match g.challenger with
      | some ci =>
        if ¬(ps.getD ci defaultPlayer).is_eliminated then ci else firstActiveIdx ps
      | none => firstActiveIdx ps
    ({ g1 with players := ps, current_player_index := idx, current_bid := 0,
               challenger := none, skull_revealer := none,
               game_state := .initial_placement }, none)

/-- `InteractiveSkullGame.handle_successful_challenge` (lines 695-713):
    increment the challenger's round wins; at 2 wins the game ends at once
    (cards are not retrieved and no new round starts); otherwise everyone
    retrieves their cards and a new round begins.  Returns `none` when no
    challenger is set (Python would raise AttributeError); the second
    component carries the winner announcement as in `start_new_round`. -/
def handle_successful_challenge (g : Game) : Option (Game × Option Nat) :=
  match g.challenger with
  | none => none
  | some ci =>
    let ch := g.players.getD ci defaultPlayer
    let ch' : Player := { ch with rounds_won := ch.rounds_won + 1 }
    let g1 : Game := { g with players := g.players.set ci ch' }
    if ch'.rounds_won ≥ 2 then
      some ({ g1 with game_state := .game_over }, some ci)
    else
      some (start_new_round { g1 with players := g1.players.map Player.retrieve_cards })

/-! ## Collaborator decision loops

Console input is modelled as a stream of already-parsed tokens (`'p'`/`'pass'`,
`'q'`/`'quit'`, an integer, or anything that makes `int()` raise ValueError).
A loop returns `none` at the outer level when the stream is exhausted, i.e.
when the Python code would still be blocked waiting for input. -/

inductive BidInput where
  | pass
  | quit
  | num (n : Nat)
  | invalid
deriving DecidableEq, Repr

/-- `InteractiveHumanPlayer.make_bid` (lines 215-245): pass and quit both
    return `None` (a pass to the caller); a number is accepted only when it
    lies in `(current_bid, max_possible]`, otherwise the same collaborator is
    prompted again; unparsable input also re-prompts. -/
def humanMakeBid (current_bid max_possible : Nat) :
    List BidInput → Option (Option Nat)
  | [] => none
  | BidInput.pass :: _ => some none
  | BidInput.quit :: _ => some none
  | BidInput.num b :: rest =>
    if current_bid < b ∧ b ≤ max_possible then some (some b)
    else humanMakeBid current_bid max_possible rest
  | BidInput.invalid :: rest => humanMakeBid current_bid max_possible rest

/-- `SimpleAIPlayer.make_bid` (lines 321-336): pass at the cap, otherwise
    raise to `min(current_bid + 1, max_possible)` when the strategy coin
    (`random.random() < raise_prob`) says so. -/
def simpleAIMakeBid (current_bid max_possible : Nat) (coin : Bool) : Option Nat :=
  if current_bid ≥ max_possible then none
  else if coin then some (min (current_bid + 1) max_possible)
  else none

inductive PlayInput where
  | quit
  | num (n : Nat)
  | invalid
deriving DecidableEq, Repr

/-- Input loop of `InteractiveHumanPlayer.choose_card_to_play`
    (lines 175-194): quit returns `None`; a 1-based index into the hand is
    accepted when in range, otherwise re-prompt. -/
def chooseCardLoop (hand : List CardType) : List PlayInput → Option (Option CardType)
  | [] => none
  | PlayInput.quit :: _ => some none
  | PlayInput.num n :: rest =>
    if 1 ≤ n ∧ n ≤ hand.length then some (some (hand.getD (n - 1) CardType.rose))
    else chooseCardLoop hand rest
  | PlayInput.invalid :: rest => chooseCardLoop hand rest

/-- `InteractiveHumanPlayer.choose_card_to_play` (lines 161-194): an empty
    hand returns `None` before any prompt; otherwise the input loop runs. -/
def humanChooseCardToPlay (hand : List CardType) (ins : List PlayInput) :
    Option (Option CardType) :=
  if hand = [] then some none else chooseCardLoop hand ins

/-! ## Phase step functions -/

/-- `InteractiveSkullGame.start_bidding_phase` (lines 512-523). -/
def start_bidding_phase (g : Game) : Game :=
  let g1 : Game := { g with game_state := .bidding, current_bid := 1 }
  { g1 with current_player_index := nextPlayerIdx g1.players g1.current_player_index }

/-- Indices of the active players who have not passed, in player order
    (`active_bidders` at line 566). -/
def activeBidders (players : List Player) : List Nat :=
  (List.range players.length).filter
    (fun j => !(players.getD j defaultPlayer).is_eliminated
              && !(players.getD j defaultPlayer).has_passed)

/-- Lines 558-577 of `bidding_phase`: record the answer (`some b` sets the
    bid unconditionally, `none` marks the current player as passed), then
    either crown the sole remaining bidder as challenger or advance the
    turn. -/
def biddingAccept (g : Game) (answer : Option Nat) : Game :=
  let cp := g.players.getD g.current_player_index defaultPlayer
  let g1 : Game :=
    match answer with
    | some b => { g with current_bid := b }
    | none =>
      { g with players := g.players.set g.current_player_index
                            { cp with has_passed := true } }
  if (activeBidders g1.players).length = 1 then
    { g1 with challenger := (activeBidders g1.players).head?,
              game_state := .challenge,
              game_stats := { g1.game_stats with
                              total_challenges := g1.game_stats.total_challenges + 1 } }
  else
    { g1 with current_player_index := nextPlayerIdx g1.players g1.current_player_index }

/-- One `bidding_phase` call (lines 525-577) with the collaborator's answer
    supplied directly (the seam of §4.5 of the spec). -/
def biddingStep (g : Game) (answer : Option Nat) : Game :=
  if g.game_state ≠ GState.bidding then g
  else if (g.players.getD g.current_player_index defaultPlayer).has_passed then
    { g with current_player_index := nextPlayerIdx g.players g.current_player_index }
  else biddingAccept g answer

/-- One `bidding_phase` call whose current player is an
    `InteractiveHumanPlayer` drawing answers from the console: the bid bound
    passed to `make_bid` is `total_cards_on_table()` (line 537).  Returns
    `none` while still blocked on input. -/
def bidding_phase_human (g : Game) (ins : List BidInput) : Option Game :=
  if g.game_state ≠ GState.bidding then some g
  else if (g.players.getD g.current_player_index defaultPlayer).has_passed then
    some { g with current_player_index := nextPlayerIdx g.players g.current_player_index }
  else
    match humanMakeBid g.current_bid (total_cards_on_table g) ins with
    | none => none
    | some ans => some (biddingAccept g ans)

/-- One `bidding_phase` call whose current player is a `SimpleAIPlayer`. -/
def bidding_phase_ai (g : Game) (coin : Bool) : Game :=
  if g.game_state ≠ GState.bidding then g
  else if (g.players.getD g.current_player_index defaultPlayer).has_passed then
    { g with current_player_index := nextPlayerIdx g.players g.current_player_index }
  else biddingAccept g (simpleAIMakeBid g.current_bid (total_cards_on_table g) coin)

/-- The per-player loop of `initial_card_placement` (lines 427-450): skip
    eliminated players, eliminate a player with an empty hand, otherwise take
    the collaborator's card answer for that index - `none` is the human quit
    signal and aborts the loop (second component `true`); `some c` is played
    via `play_card`. -/
def placeGo (answers : Nat → Option CardType) :
    List Player → Nat → Nat → List Player × Bool
  | players, _, 0 => (players, false)
  | players, i, fuel + 1 =>
    if i < players.length then
      let p := players.getD i defaultPlayer
      if p.is_eliminated then placeGo answers players (i + 1) fuel
      else if p.hand = [] then
        placeGo answers (players.set i { p with is_eliminated := true }) (i + 1) fuel
      else
        match answers i with
        | none => (players, true)
        | some c => placeGo answers (players.set i (p.play_card c).2) (i + 1) fuel
    else (players, false)

/-- Entry point of the placement loop at index `i`: the fuel
    `players.length - i` covers every remaining index (`set` preserves the
    length), so the recursion mirrors the source's `for` loop exactly. -/
def placeLoop (players : List Player) (answers : Nat → Option CardType) (i : Nat) :
    List Player × Bool :=
  placeGo answers players i (players.length - i)

/-- `InteractiveSkullGame.initial_card_placement` (lines 414-460): end the
    game when fewer than 2 active players exist before or after placement, or
    when a player quits mid-loop; otherwise move to card placement. -/
def initial_card_placement (g : Game) (answers : Nat → Option CardType) : Game :=
  if activeCount g.players < 2 then { g with game_state := .game_over }
  else
    match placeLoop g.players answers 0 with
    | (ps, true) => { g with players := ps, game_state := .game_over }
    | (ps, false) =>
      if activeCount ps < 2 then { g with players := ps, game_state := .game_over }
      else { g with players := ps, game_state := .card_placement }

/-- One `card_placement_phase` call (lines 462-510) whose current player is an
    `InteractiveHumanPlayer`: `shouldBid` is the answer of
    `decide_play_or_bid`; a quit while choosing the card (the loop returning
    `None`, lines 492-494) forces the game over.  Returns `none` while still
    blocked on input. -/
def card_placement_phase_human (g : Game) (shouldBid : Bool)
    (ins : List PlayInput) : Option Game :=
  if g.game_state ≠ GState.card_placement then some g
  else
    let cp := g.players.getD g.current_player_index defaultPlayer
    if cp.hand = [] then some (start_bidding_phase g)
    else if shouldBid then some (start_bidding_phase g)
    else
      match humanChooseCardToPlay cp.hand ins with
      | none => none
      | some none => some { g with game_state := .game_over }
      | some (some c) =>
        let g1 : Game :=
          { g with players := g.players.set g.current_player_index (cp.play_card c).2 }
        some { g1 with current_player_index :=
                 nextPlayerIdx g1.players g1.current_player_index }

/-! ## List helper lemmas -/

lemma getD_set_self {α : Type} (l : List α) (i : Nat) (a d : α) (h : i < l.length) :
    (l.set i a).getD i d = a := by
  simp [List.getD_eq_getElem?_getD, List.getElem?_set_self', List.getElem?_eq_getElem h]

lemma getD_set_ne {α : Type} (l : List α) {i j : Nat} (a d : α) (h : i ≠ j) :
    (l.set i a).getD j d = l.getD j d := by
  simp [List.getD_eq_getElem?_getD, List.getElem?_set_ne h]

lemma getD_mem {α : Type} {l : List α} {i : Nat} (d : α) (h : i < l.length) :
    l.getD i d ∈ l := by
  simp [List.getD_eq_getElem?_getD, List.getElem?_eq_getElem h]

/-! ## Claims -/

/-- Claim C6: constructing a game with fewer than 2 or more than 6 players
    fails immediately at construction with a configuration error, and
    construction with any 2 to 6 players succeeds. -/
theorem C6_player_count_validated (ps : List Player) :
    (∃ g, interactiveSkullGame_init ps = .ok g) ↔
      (2 ≤ ps.length ∧ ps.length ≤ 6) := by
  constructor
  · rintro ⟨g, hg⟩
    unfold interactiveSkullGame_init at hg
    split at hg
    · exact absurd hg (by simp)
    · next h => omega
  · intro h
    unfold interactiveSkullGame_init
    rw [if_neg (by omega)]
    exact ⟨_, rfl⟩

/-- Claim C10: `play_card` is atomic at its boundary.  If the card is in the
    hand the call returns True and moves exactly that one card from hand to
    the top of the played stack (the remaining hand together with the moved
    card is a permutation of the old hand); if it is not, the call returns
    False and leaves the player - hand, stack and statistics - unchanged. -/
theorem C10_play_card_atomic (p : Player) (c : CardType) :
    (c ∈ p.hand →
      (p.play_card c).1 = true ∧
      (p.play_card c).2.hand = p.hand.erase c ∧
      (c :: (p.play_card c).2.hand).Perm p.hand ∧
      (p.play_card c).2.played_cards = c :: p.played_cards ∧
      (p.play_card c).2.rounds_won = p.rounds_won ∧
      (p.play_card c).2.is_eliminated = p.is_eliminated ∧
      (p.play_card c).2.has_passed = p.has_passed) ∧
    (c ∉ p.hand → p.play_card c = (false, p)) := by
  unfold Player.play_card
  constructor
  · intro h
    rw [if_pos h]
    cases c <;>
      exact ⟨rfl, rfl, (List.perm_cons_erase h).symm, rfl, rfl, rfl, rfl⟩
  · intro h
    simp [h]

/-- Witness for C10 on a fresh player playing a Rose. -/
theorem C10_play_card_atomic_witness :
    ((mkPlayer "A" false).play_card CardType.rose).1 = true :=
  ((C10_play_card_atomic (mkPlayer "A" false) CardType.rose).1 (by decide)).1

/-! ### Card conservation helpers (claim C3) -/

lemma play_card_cardTotal (p : Player) (c : CardType) :
    ((p.play_card c).2).cardTotal = p.cardTotal := by
  unfold Player.play_card Player.cardTotal
  by_cases h : c ∈ p.hand
  · have hpos : 0 < p.hand.length := List.length_pos.mpr (List.ne_nil_of_mem h)
    have hlen : (p.hand.erase c).length = p.hand.length - 1 :=
      List.length_erase_of_mem h
    rw [if_pos h]
    cases c <;> simp [hlen]
    all_goals omega
  · rw [if_neg h]

lemma retrieve_cards_cardTotal (p : Player) :
    p.retrieve_cards.cardTotal = p.cardTotal := by
  simp [Player.retrieve_cards, Player.cardTotal]
  try omega

lemma lose_chosen_card_cardTotal (p : Player) (c : CardType) :
    ((p.lose_chosen_card c).1).cardTotal = p.cardTotal := by
  unfold Player.lose_chosen_card Player.cardTotal
  by_cases h : c ∈ p.hand
  · have hpos : 0 < p.hand.length := List.length_pos.mpr (List.ne_nil_of_mem h)
    have hlen : (p.hand.erase c).length = p.hand.length - 1 :=
      List.length_erase_of_mem h
    rw [if_pos h]
    simp [hlen]
    omega
  · rw [if_neg h]

lemma lose_random_card_cardTotal (p : Player) (r : Nat) :
    ((p.lose_random_card r).1).cardTotal = p.cardTotal := by
  unfold Player.lose_random_card Player.cardTotal
  split
  · rfl
  · next a rest hh =>
    have hpos : 0 < p.hand.length := by rw [hh]; simp
    have hmem : p.hand.getD (r % p.hand.length) CardType.rose ∈ p.hand :=
      getD_mem _ (Nat.mod_lt _ hpos)
    have hlen : (p.hand.erase (p.hand.getD (r % p.hand.length) CardType.rose)).length
        = p.hand.length - 1 := List.length_erase_of_mem hmem
    simp only [List.getD_eq_getElem?_getD] at hlen
    simp [hlen]
    omega

lemma revealOwn_cardTotal (n : Nat) : ∀ (p : Player) (r : OwnResult),
    revealOwn p n = .ok r → r.challenger.cardTotal = p.cardTotal := by
  induction n with
  | zero =>
    intro p r h
    simp only [revealOwn] at h
    cases h
    rfl
  | succ n ih =>
    intro p r h
    simp only [revealOwn] at h
    split at h
    · cases h
      rfl
    · next c rest hpc =>
      split at h
      · exact absurd h (by simp)
      · split at h
        · cases h
          simp [Player.cardTotal, hpc]
          omega
        · split at h
          · exact absurd h (by simp)
          · next r' hr' =>
            cases h
            have h2 := ih _ _ hr'
            rw [h2]
            simp [Player.cardTotal, hpc]
            omega

lemma getD_set_cardTotal (players : List Player) (ti : Nat) (q : Player)
    (hq : q.cardTotal = (players.getD ti defaultPlayer).cardTotal) (j : Nat) :
    ((players.set ti q).getD j defaultPlayer).cardTotal
      = (players.getD j defaultPlayer).cardTotal := by
  by_cases hj : ti = j
  · subst hj
    by_cases hlt : ti < players.length
    · rw [getD_set_self _ _ _ _ hlt]; exact hq
    · rw [List.set_eq_of_length_le (by omega)]
  · rw [getD_set_ne _ _ _ hj]

lemma revealOthers_cardTotal (n : Nat) :
    ∀ (players : List Player) (eligible : List Nat) (pick : Nat → Nat) (step j : Nat),
    (((revealOthers players eligible pick step n).players.getD j defaultPlayer).cardTotal)
      = ((players.getD j defaultPlayer).cardTotal) := by
  induction n with
  | zero => intros; rfl
  | succ n ih =>
    intro players eligible pick step j
    unfold revealOthers
    by_cases he : eligible = []
    · rw [if_pos he]
    · rw [if_neg he]
      simp only []
      cases htp : (players.getD (eligible.getD (pick step % eligible.length) 0)
          defaultPlayer).played_cards with
      | nil => rfl
      | cons c rest =>
        simp only []
        have hq : (Player.cardTotal
            { players.getD (eligible.getD (pick step % eligible.length) 0) defaultPlayer with
              hand := (players.getD (eligible.getD (pick step % eligible.length) 0)
                        defaultPlayer).hand ++ [c],
              played_cards := rest })
            = (players.getD (eligible.getD (pick step % eligible.length) 0)
                defaultPlayer).cardTotal := by
          simp only [List.getD_eq_getElem?_getD] at htp
          simp [Player.cardTotal, htp]
          try omega
        by_cases hc : c = CardType.skull
        · rw [if_pos hc]
          exact getD_set_cardTotal _ _ _ hq j
        · rw [if_neg hc]
          simp only []
          rw [ih]
          exact getD_set_cardTotal _ _ _ hq j

/-- Claim C3: card conservation.  A fresh player holds exactly 3 Roses and
    1 Skull, so hand + stack + permanently-lost equals 4, and every card
    movement in the source - playing a card, retrieving the stack, losing a
    chosen or a random card, and each reveal during a challenge (own stack or
    another player's) - preserves that sum. -/
theorem C3_card_conservation :
    (∀ name ai, (mkPlayer name ai).hand
        = [CardType.rose, CardType.rose, CardType.rose, CardType.skull]
      ∧ (mkPlayer name ai).cardTotal = 4) ∧
    (∀ (p : Player) (c : CardType), ((p.play_card c).2).cardTotal = p.cardTotal) ∧
    (∀ (p : Player), p.retrieve_cards.cardTotal = p.cardTotal) ∧
    (∀ (p : Player) (c : CardType), ((p.lose_chosen_card c).1).cardTotal = p.cardTotal) ∧
    (∀ (p : Player) (r : Nat), ((p.lose_random_card r).1).cardTotal = p.cardTotal) ∧
    (∀ (p : Player) (n : Nat) (r : OwnResult),
      revealOwn p n = .ok r → r.challenger.cardTotal = p.cardTotal) ∧
    (∀ players eligible pick step n j,
      (((revealOthers players eligible pick step n).players.getD j
          defaultPlayer).cardTotal)
        = ((players.getD j defaultPlayer).cardTotal)) :=
  ⟨fun _ _ => ⟨rfl, rfl⟩,
   play_card_cardTotal,
   retrieve_cards_cardTotal,
   lose_chosen_card_cardTotal,
   lose_random_card_cardTotal,
   fun p n r h => revealOwn_cardTotal n p r h,
   fun players eligible pick step n j => revealOthers_cardTotal n players eligible pick step j⟩

/-- Concrete player for the C3 witness: one Rose already played. -/
def c3Player : Player :=
  { defaultPlayer with
    hand := [CardType.rose, CardType.rose, CardType.rose],
    played_cards := [CardType.rose] }

/-- Witness for C3: revealing the single played Rose of `c3Player` with bid 1
    preserves the conserved sum. -/
theorem C3_card_conservation_witness :
    (OwnResult.mk
      { c3Player with hand := c3Player.hand ++ [CardType.rose], played_cards := [] }
      0 false [CardType.rose]).challenger.cardTotal = c3Player.cardTotal :=
  C3_card_conservation.2.2.2.2.2.1 c3Player 1 _ rfl

/-! ### Round lifecycle helpers (claims C4, C5) -/

lemma getD_map_proj {β : Type} (f : Player → Player) (proj : Player → β)
    (hf : ∀ p, proj (f p) = proj p) (l : List Player) (j : Nat) :
    proj ((l.map f).getD j defaultPlayer) = proj (l.getD j defaultPlayer) := by
  by_cases hj : j < l.length
  · simp [List.getD_eq_getElem?_getD, List.getElem?_map,
          List.getElem?_eq_getElem hj, hf]
  · rw [List.getD_eq_getElem?_getD, List.getD_eq_getElem?_getD,
        List.getElem?_eq_none (by simpa using by omega),
        List.getElem?_eq_none (by omega)]

lemma findIdx_map_eq (f : Player → Player) (p : Player → Bool)
    (hf : ∀ x, p (f x) = p x) (l : List Player) :
    (l.map f).findIdx p = l.findIdx p := by
  induction l with
  | nil => rfl
  | cons a l ih => simp [List.findIdx_cons, hf, ih]

lemma activeIndices_map_reset (l : List Player) :
    activeIndices (l.map Player.reset_for_new_round) = activeIndices l := by
  unfold activeIndices
  rw [List.length_map]
  apply List.filter_congr
  intro j hj
  rw [getD_map_proj Player.reset_for_new_round (fun p => p.is_eliminated)
        (fun _ => rfl) l j]

lemma firstActiveIdx_map_reset (l : List Player) :
    firstActiveIdx (l.map Player.reset_for_new_round) = firstActiveIdx l := by
  unfold firstActiveIdx
  exact findIdx_map_eq Player.reset_for_new_round
    (fun p => !p.is_eliminated) (fun _ => rfl) l

lemma start_new_round_players (g : Game) :
    (start_new_round g).1.players = g.players.map Player.reset_for_new_round := by
  simp only [start_new_round]
  by_cases hle :
      (activeIndices (g.players.map Player.reset_for_new_round)).length ≤ 1
  · rw [if_pos hle]
  · rw [if_neg hle]

lemma start_new_round_spec_le (g : Game)
    (h : (activeIndices (g.players.map Player.reset_for_new_round)).length ≤ 1) :
    (start_new_round g).1.game_state = GState.game_over ∧
    (start_new_round g).2
      = (activeIndices (g.players.map Player.reset_for_new_round)).head? := by
  simp only [start_new_round]
  rw [if_pos h]
  exact ⟨rfl, rfl⟩

lemma start_new_round_spec_gt (g : Game)
    (h : ¬(activeIndices (g.players.map Player.reset_for_new_round)).length ≤ 1) :
    (start_new_round g).1.game_state = GState.initial_placement ∧
    (start_new_round g).1.current_bid = 0 ∧
    (start_new_round g).1.challenger = none ∧
    (start_new_round g).1.skull_revealer = none ∧
    (start_new_round g).1.current_player_index =
      (match g.challenger with
       | some ci =>
         if ¬((g.players.map Player.reset_for_new_round).getD ci
                defaultPlayer).is_eliminated then ci
         else firstActiveIdx (g.players.map Player.reset_for_new_round)
       | none => firstActiveIdx (g.players.map Player.reset_for_new_round)) := by
  simp only [start_new_round]
  rw [if_neg h]
  exact ⟨rfl, rfl, rfl, rfl, rfl⟩

lemma getD_map_reset_has_passed (l : List Player) (j : Nat) :
    ((l.map Player.reset_for_new_round).getD j defaultPlayer).has_passed = false := by
  by_cases hj : j < l.length
  · simp [List.getD_eq_getElem?_getD, List.getElem?_map,
          List.getElem?_eq_getElem hj, Player.reset_for_new_round]
  · rw [List.getD_eq_getElem?_getD,
        List.getElem?_eq_none (by simpa using by omega)]
    rfl

/-- Claim C5: at round reset, if at most one active player remains the game
    ends, announcing the sole active player (or no one) as winner; otherwise
    the next round starts from the previous challenger if still active (else
    the first active player in order), with the transient round state
    cleared: bid 0, no challenger, no skull revealer, all pass flags reset,
    phase back to InitialPlacement. -/
theorem C5_round_reset (g : Game) :
    ((activeIndices g.players).length ≤ 1 →
      (start_new_round g).1.game_state = GState.game_over ∧
      (start_new_round g).2 = (activeIndices g.players).head?) ∧
    (2 ≤ (activeIndices g.players).length →
      (start_new_round g).1.game_state = GState.initial_placement ∧
      (start_new_round g).1.current_bid = 0 ∧
      (start_new_round g).1.challenger = none ∧
      (start_new_round g).1.skull_revealer = none ∧
      (∀ j, ((start_new_round g).1.players.getD j defaultPlayer).has_passed = false) ∧
      (start_new_round g).1.current_player_index =
        (match g.challenger with
         | some ci =>
           if ¬(g.players.getD ci defaultPlayer).is_eliminated then ci
           else firstActiveIdx g.players
         | none => firstActiveIdx g.players)) := by
  have hactive := activeIndices_map_reset g.players
  constructor
  · intro h1
    have hspec := start_new_round_spec_le g (by rw [hactive]; exact h1)
    rw [hactive] at hspec
    exact hspec
  · intro h2
    have hspec := start_new_round_spec_gt g (by rw [hactive]; omega)
    refine ⟨hspec.1, hspec.2.1, hspec.2.2.1, hspec.2.2.2.1, ?_, ?_⟩
    · intro j
      rw [start_new_round_players]
      exact getD_map_reset_has_passed g.players j
    · rw [hspec.2.2.2.2]
      cases g.challenger with
      | none => exact firstActiveIdx_map_reset g.players
      | some ci =>
        simp only []
        rw [getD_map_proj Player.reset_for_new_round (fun p => p.is_eliminated)
              (fun _ => rfl) g.players ci,
            firstActiveIdx_map_reset g.players]

/-- Witness game for C5: two active players, challenger index 1 active. -/
def c5Game : Game :=
  { players := [mkPlayer "A" false, mkPlayer "B" true],
    current_player_index := 0, game_state := .challenge, current_bid := 2,
    challenger := some 1, skull_revealer := none, round_number := 3,
    game_stats := ⟨2, 2, 1, 0⟩ }

/-- Witness for C5 in the two-active-players branch. -/
theorem C5_round_reset_witness :
    (start_new_round c5Game).1.game_state = GState.initial_placement ∧
    (start_new_round c5Game).1.current_player_index = 1 :=
  ⟨((C5_round_reset c5Game).2 (by decide)).1,
   by
    have h := ((C5_round_reset c5Game).2 (by decide)).2.2.2.2.2
    simpa using h⟩

lemma start_new_round_rounds (g : Game) (j : Nat) :
    ((start_new_round g).1.players.getD j defaultPlayer).rounds_won
      = (g.players.getD j defaultPlayer).rounds_won := by
  rw [start_new_round_players]
  exact getD_map_proj Player.reset_for_new_round (fun p => p.rounds_won)
    (fun _ => rfl) _ j

lemma getD_map_retrieve_rounds (l : List Player) (j : Nat) :
    ((l.map Player.retrieve_cards).getD j defaultPlayer).rounds_won
      = (l.getD j defaultPlayer).rounds_won :=
  getD_map_proj Player.retrieve_cards (fun p => p.rounds_won) (fun _ => rfl) l j

/-- Claim C4: a successful challenge increments the challenger's round-win
    count by exactly one (all other players' counts are untouched), and when
    that count reaches 2 the game moves immediately to GameOver with the
    challenger announced as winner and no new round started (the round
    counter does not advance). -/
theorem C4_successful_challenge (g : Game) (ci : Nat) (g' : Game) (w : Option Nat)
    (hci : g.challenger = some ci) (hlt : ci < g.players.length)
    (hres : handle_successful_challenge g = some (g', w)) :
    (g'.players.getD ci defaultPlayer).rounds_won
      = (g.players.getD ci defaultPlayer).rounds_won + 1 ∧
    (∀ j, j ≠ ci → (g'.players.getD j defaultPlayer).rounds_won
      = (g.players.getD j defaultPlayer).rounds_won) ∧
    ((g.players.getD ci defaultPlayer).rounds_won + 1 ≥ 2 →
      g'.game_state = GState.game_over ∧ w = some ci ∧
      g'.round_number = g.round_number) := by
  unfold handle_successful_challenge at hres
  rw [hci] at hres
  dsimp only at hres
  split at hres
  · next hwin =>
    injection hres with hres'
    have hg1 := congrArg Prod.fst hres'
    have hw := congrArg Prod.snd hres'
    dsimp only at hg1 hw
    refine ⟨?_, ?_, ?_⟩
    · rw [← hg1]
      exact congrArg Player.rounds_won (getD_set_self _ _ _ _ hlt)
    · intro j hj
      rw [← hg1]
      exact congrArg Player.rounds_won (getD_set_ne _ _ _ (fun h => hj h.symm))
    · intro _
      exact ⟨by rw [← hg1], by rw [← hw], by rw [← hg1]⟩
  · next hwin =>
    injection hres with hres'
    have hg1 := congrArg Prod.fst hres'
    dsimp only at hg1 hwin
    refine ⟨?_, ?_, ?_⟩
    · rw [← hg1, start_new_round_rounds]
      dsimp only
      rw [getD_map_retrieve_rounds, getD_set_self _ _ _ _ hlt]
    · intro j hj
      rw [← hg1, start_new_round_rounds]
      dsimp only
      rw [getD_map_retrieve_rounds, getD_set_ne _ _ _ (fun h => hj h.symm)]
    · intro hwin2
      exfalso
      exact hwin (by omega)

/-- Witness game for C4: the challenger (index 0) already has one round won,
    so the successful challenge ends the game. -/
def c4Game : Game :=
  { players := [{ mkPlayer "A" false with rounds_won := 1 }, mkPlayer "B" true],
    current_player_index := 0, game_state := .challenge, current_bid := 1,
    challenger := some 0, skull_revealer := none, round_number := 2,
    game_stats := ⟨1, 1, 0, 0⟩ }

/-- Witness for C4: the game is over and the challenger is the declared
    winner after their second round win. -/
theorem C4_successful_challenge_witness :
    (((handle_successful_challenge c4Game).getD (c4Game, none)).1).game_state
      = GState.game_over :=
  ((C4_successful_challenge c4Game 0
      ((handle_successful_challenge c4Game).getD (c4Game, none)).1
      ((handle_successful_challenge c4Game).getD (c4Game, none)).2
      rfl (by decide) rfl).2.2 (by decide)).1

/-! ### Collaborator decision-loop helpers (claims C7, C9) -/

lemma humanMakeBid_legal (cb mx : Nat) : ∀ (ins : List BidInput) (b : Nat),
    humanMakeBid cb mx ins = some (some b) → cb < b ∧ b ≤ mx := by
  intro ins
  induction ins with
  | nil =>
    intro b h
    exact Option.noConfusion h
  | cons t rest ih =>
    intro b h
    cases t with
    | pass => simp [humanMakeBid] at h
    | quit => simp [humanMakeBid] at h
    | num n =>
      unfold humanMakeBid at h
      split at h
      · next hcond =>
        cases h
        exact hcond
      · exact ih b h
    | invalid => exact ih b h

lemma humanMakeBid_reprompt (cb mx b : Nat) (rest : List BidInput)
    (h : ¬(cb < b ∧ b ≤ mx)) :
    humanMakeBid cb mx (BidInput.num b :: rest) = humanMakeBid cb mx rest := by
  show (if cb < b ∧ b ≤ mx then some (some b) else humanMakeBid cb mx rest)
      = humanMakeBid cb mx rest
  rw [if_neg h]

lemma chooseCardLoop_mem (hand : List CardType) : ∀ (ins : List PlayInput) (c : CardType),
    chooseCardLoop hand ins = some (some c) → c ∈ hand := by
  intro ins
  induction ins with
  | nil =>
    intro c h
    exact Option.noConfusion h
  | cons t rest ih =>
    intro c h
    cases t with
    | quit => simp [chooseCardLoop] at h
    | num n =>
      unfold chooseCardLoop at h
      split at h
      · next hcond =>
        cases h
        exact getD_mem _ (by omega)
      · exact ih c h
    | invalid => exact ih c h

lemma humanChooseCardToPlay_mem (hand : List CardType) (ins : List PlayInput)
    (c : CardType) (h : humanChooseCardToPlay hand ins = some (some c)) :
    c ∈ hand := by
  unfold humanChooseCardToPlay at h
  split at h
  · simp at h
  · exact chooseCardLoop_mem hand ins c h

lemma humanChooseCardToPlay_reprompt (hand : List CardType) (n : Nat)
    (rest : List PlayInput) (h : ¬(1 ≤ n ∧ n ≤ hand.length)) :
    humanChooseCardToPlay hand (PlayInput.num n :: rest)
      = humanChooseCardToPlay hand rest := by
  unfold humanChooseCardToPlay
  split
  · rfl
  · show (if 1 ≤ n ∧ n ≤ hand.length
        then some (some (hand.getD (n - 1) CardType.rose))
        else chooseCardLoop hand rest) = chooseCardLoop hand rest
    rw [if_neg h]

lemma simpleAIMakeBid_legal (cb mx : Nat) (coin : Bool) (b : Nat)
    (h : simpleAIMakeBid cb mx coin = some b) : cb < b ∧ b ≤ mx := by
  unfold simpleAIMakeBid at h
  split at h
  · exact Option.noConfusion h
  · next hge =>
    split at h
    · cases h
      omega
    · exact Option.noConfusion h

/-- Claim C7: illegal decision answers are rejected at the boundary.  The
    human bidding loop never returns an out-of-interval bid and, on an
    illegal number, re-prompts the same collaborator (consumes the next
    answer from the same stream with nothing else changed); the human
    card-choice loop never returns a card outside the hand and re-prompts on
    an out-of-range index. -/
theorem C7_illegal_answers_rejected :
    (∀ (cb mx : Nat) (ins : List BidInput) (b : Nat),
        humanMakeBid cb mx ins = some (some b) → cb < b ∧ b ≤ mx) ∧
    (∀ (cb mx b : Nat) (rest : List BidInput), ¬(cb < b ∧ b ≤ mx) →
        humanMakeBid cb mx (BidInput.num b :: rest) = humanMakeBid cb mx rest) ∧
    (∀ (hand : List CardType) (ins : List PlayInput) (c : CardType),
        humanChooseCardToPlay hand ins = some (some c) → c ∈ hand) ∧
    (∀ (hand : List CardType) (n : Nat) (rest : List PlayInput),
        ¬(1 ≤ n ∧ n ≤ hand.length) →
        humanChooseCardToPlay hand (PlayInput.num n :: rest)
          = humanChooseCardToPlay hand rest) :=
  ⟨humanMakeBid_legal, humanMakeBid_reprompt,
   humanChooseCardToPlay_mem, humanChooseCardToPlay_reprompt⟩

/-- Witness for C7: with current bid 1 and cap 3, the illegal bid 9 is
    skipped and the next answer 2 is accepted, landing in the legal interval;
    choosing card 1 from a one-card hand returns a card of that hand. -/
theorem C7_illegal_answers_rejected_witness :
    (1 < 2 ∧ 2 ≤ 3) ∧ CardType.rose ∈ [CardType.rose] :=
  ⟨C7_illegal_answers_rejected.1 1 3 [BidInput.num 9, BidInput.num 2] 2 rfl,
   C7_illegal_answers_rejected.2.2.1 [CardType.rose] [PlayInput.num 1]
     CardType.rose rfl⟩

/-! ### Bidding-step helpers (claims C8, C9) -/

lemma biddingAccept_some_bid (g : Game) (b : Nat) :
    (biddingAccept g (some b)).current_bid = b := by
  unfold biddingAccept
  dsimp only
  split <;> rfl

lemma biddingAccept_none_bid (g : Game) :
    (biddingAccept g none).current_bid = g.current_bid := by
  unfold biddingAccept
  dsimp only
  split <;> rfl

lemma biddingAccept_none_passed (g : Game)
    (hlt : g.current_player_index < g.players.length) :
    ((biddingAccept g none).players.getD g.current_player_index
        defaultPlayer).has_passed = true := by
  unfold biddingAccept
  dsimp only
  split <;>
    exact congrArg Player.has_passed (getD_set_self _ _ _ _ hlt)

lemma biddingAccept_state (g : Game) (answer : Option Nat) :
    (biddingAccept g answer).game_state = GState.challenge ∨
    (biddingAccept g answer).game_state = g.game_state := by
  unfold biddingAccept
  cases answer <;> dsimp only <;> split <;> simp

/-- Claim C9: within the bidding phase every step either leaves the bid
    unchanged or raises it into `(currentBid, totalCardsOnTable]` - for the
    human collaborator and for the AI collaborator alike - and a pass sets
    the passing player's flag without changing the bid. -/
theorem C9_bid_monotonic :
    (∀ (g : Game) (ins : List BidInput) (g' : Game),
        bidding_phase_human g ins = some g' →
        g'.current_bid = g.current_bid ∨
          (g.current_bid < g'.current_bid ∧
           g'.current_bid ≤ total_cards_on_table g)) ∧
    (∀ (g : Game) (coin : Bool),
        (bidding_phase_ai g coin).current_bid = g.current_bid ∨
          (g.current_bid < (bidding_phase_ai g coin).current_bid ∧
           (bidding_phase_ai g coin).current_bid ≤ total_cards_on_table g)) ∧
    (∀ (g : Game), g.game_state = GState.bidding →
        g.current_player_index < g.players.length →
        (g.players.getD g.current_player_index defaultPlayer).has_passed = false →
        (biddingStep g none).current_bid = g.current_bid ∧
        ((biddingStep g none).players.getD g.current_player_index
            defaultPlayer).has_passed = true) := by
  refine ⟨?_, ?_, ?_⟩
  · intro g ins g' h
    unfold bidding_phase_human at h
    split at h
    · cases h
      left
      rfl
    · split at h
      · cases h
        left
        rfl
      · split at h
        · exact Option.noConfusion h
        · next ans hans =>
          cases h
          cases ans with
          | none =>
            left
            exact biddingAccept_none_bid g
          | some b =>
            right
            have hleg := humanMakeBid_legal g.current_bid (total_cards_on_table g)
              ins b hans
            rw [biddingAccept_some_bid]
            exact hleg
  · intro g coin
    unfold bidding_phase_ai
    split
    · left
      rfl
    · split
      · left
        rfl
      · cases hai : simpleAIMakeBid g.current_bid (total_cards_on_table g) coin with
        | none =>
          left
          exact biddingAccept_none_bid g
        | some b =>
          right
          have hleg := simpleAIMakeBid_legal g.current_bid (total_cards_on_table g)
            coin b hai
          rw [biddingAccept_some_bid]
          exact hleg
  · intro g hs hlt hp
    unfold biddingStep
    rw [if_neg (by simp [hs]), if_neg (by rw [hp]; simp)]
    exact ⟨biddingAccept_none_bid g, biddingAccept_none_passed g hlt⟩

/-- Witness game for C9: three fresh players, one card each on the table,
    bidding under way with the current bid at 1. -/
def c9Game : Game :=
  { players := [(mkPlayer "H" false).play_card CardType.rose |>.2,
                (mkPlayer "A" true).play_card CardType.rose |>.2,
                (mkPlayer "B" true).play_card CardType.skull |>.2],
    current_player_index := 0, game_state := .bidding, current_bid := 1,
    challenger := none, skull_revealer := none, round_number := 1,
    game_stats := ⟨0, 0, 0, 0⟩ }

/-- Witness for C9: the human player raises the bid from 1 to 2 with 3 cards
    on the table, and a pass leaves the bid at 1 while marking the flag. -/
theorem C9_bid_monotonic_witness :
    ((biddingAccept c9Game (some 2)).current_bid = c9Game.current_bid ∨
      (c9Game.current_bid < (biddingAccept c9Game (some 2)).current_bid ∧
       (biddingAccept c9Game (some 2)).current_bid ≤ total_cards_on_table c9Game)) ∧
    ((biddingStep c9Game none).current_bid = c9Game.current_bid ∧
     ((biddingStep c9Game none).players.getD c9Game.current_player_index
        defaultPlayer).has_passed = true) :=
  ⟨C9_bid_monotonic.1 c9Game [BidInput.num 2] (biddingAccept c9Game (some 2)) rfl,
   C9_bid_monotonic.2.2 c9Game rfl (by decide) (by decide)⟩

/-- Game used to refute claim C8: a three-player game in the bidding phase,
    the interactive player (index 0) about to answer. -/
def c8Game : Game :=
  { players := [mkPlayer "H" false, mkPlayer "A" true, mkPlayer "B" true],
    current_player_index := 0, game_state := .bidding, current_bid := 1,
    challenger := none, skull_revealer := none, round_number := 1,
    game_stats := ⟨0, 0, 0, 0⟩ }

/-- Counterexample to claim C8: the human player signals withdrawal (quit)
    during the bidding phase; `make_bid` maps the quit to `None`, the core
    records a pass, and the game continues in the bidding phase - the phase
    is NOT forced to GameOver. -/
theorem C8_withdrawal_counterexample :
    humanMakeBid c8Game.current_bid (total_cards_on_table c8Game) [BidInput.quit]
      = some none ∧
    (bidding_phase_human c8Game [BidInput.quit]).map Game.game_state
      = some GState.bidding ∧
    (bidding_phase_human c8Game [BidInput.quit]).map
        (fun g => (g.players.getD 0 defaultPlayer).has_passed) = some true := by
  refine ⟨rfl, ?_, ?_⟩ <;> decide

/-- Claim C8 as amended: a withdrawal signal while choosing a card to place
    (in the initial-placement loop or in the card-placement phase) forces the
    phase to GameOver; a withdrawal signal during bidding is instead treated
    as a pass - the player's flag is set, the bid is unchanged, and the game
    stays in bidding or moves to the challenge, never to GameOver. -/
theorem C8_withdrawal_amended :
    (∀ (g : Game) (rest : List PlayInput),
        g.game_state = GState.card_placement →
        (g.players.getD g.current_player_index defaultPlayer).hand ≠ [] →
        card_placement_phase_human g false (PlayInput.quit :: rest)
          = some { g with game_state := GState.game_over }) ∧
    (∀ (players : List Player) (answers : Nat → Option CardType) (i : Nat),
        i < players.length →
        (players.getD i defaultPlayer).is_eliminated = false →
        (players.getD i defaultPlayer).hand ≠ [] →
        answers i = none →
        placeLoop players answers i = (players, true)) ∧
    (∀ (g : Game) (answers : Nat → Option CardType) (ps : List Player),
        2 ≤ activeCount g.players →
        placeLoop g.players answers 0 = (ps, true) →
        (initial_card_placement g answers).game_state = GState.game_over) ∧
    (∀ (g : Game) (rest : List BidInput),
        g.game_state = GState.bidding →
        g.current_player_index < g.players.length →
        (g.players.getD g.current_player_index defaultPlayer).has_passed = false →
        bidding_phase_human g (BidInput.quit :: rest) = some (biddingAccept g none) ∧
        (biddingAccept g none).current_bid = g.current_bid ∧
        ((biddingAccept g none).players.getD g.current_player_index
            defaultPlayer).has_passed = true ∧
        ((biddingAccept g none).game_state = GState.bidding ∨
         (biddingAccept g none).game_state = GState.challenge)) := by
  refine ⟨?_, ?_, ?_, ?_⟩
  · intro g rest hs hh
    unfold card_placement_phase_human
    rw [if_neg (by simp [hs])]
    dsimp only
    rw [if_neg hh, if_neg (by simp)]
    unfold humanChooseCardToPlay
    rw [if_neg hh]
    rfl
  · intro players answers i hlt helim hh hans
    unfold placeLoop
    obtain ⟨f, hf⟩ : ∃ f, players.length - i = f + 1 := ⟨players.length - i - 1, by omega⟩
    rw [hf]
    unfold placeGo
    rw [if_pos hlt]
    dsimp only
    rw [if_neg (by rw [helim]; simp), if_neg hh, hans]
  · intro g answers ps hact hloop
    unfold initial_card_placement
    rw [if_neg (by omega), hloop]
  · intro g rest hs hlt hp
    refine ⟨?_, biddingAccept_none_bid g, biddingAccept_none_passed g hlt, ?_⟩
    · unfold bidding_phase_human
      rw [if_neg (by simp [hs]), if_neg (by rw [hp]; simp)]
      rfl
    · rcases biddingAccept_state g none with h | h
      · right
        exact h
      · left
        rw [h, hs]

/-- Witness game for the amended C8: a two-player game in the card-placement
    phase with the human (index 0) still holding cards. -/
def c8PlaceGame : Game :=
  { players := [mkPlayer "H" false, mkPlayer "A" true],
    current_player_index := 0, game_state := .card_placement, current_bid := 0,
    challenger := none, skull_revealer := none, round_number := 1,
    game_stats := ⟨0, 0, 0, 0⟩ }

/-- Witness for the amended C8: quitting while choosing a card in the
    card-placement phase forces GameOver. -/
theorem C8_withdrawal_amended_witness :
    card_placement_phase_human c8PlaceGame false [PlayInput.quit]
      = some { c8PlaceGame with game_state := GState.game_over } :=
  C8_withdrawal_amended.1 c8PlaceGame [] rfl (by decide)

/-! ### Challenge-resolution spec lemmas (claims C1, C2) -/

/-- Full behaviour of the pass over the challenger's own stack: when the
    challenger satisfies the card-count check, the pass succeeds, the
    revealed cards are a prefix of the stack (top first), they all move into
    the hand, at most `n` cards are revealed, a skull is always the last
    card revealed with only roses before it, and without a skull the pass
    stops only when the bid is satisfied or the stack is empty. -/
lemma revealOwn_spec : ∀ (n : Nat) (p : Player),
    p.hand.length + p.played_cards.length + p.stats.challenges_lost = 4 →
    ∃ r, revealOwn p n = .ok r ∧
      r.revealed = p.played_cards.take r.revealed.length ∧
      r.revealed.length ≤ n ∧
      r.challenger.hand = p.hand ++ r.revealed ∧
      r.challenger.played_cards = p.played_cards.drop r.revealed.length ∧
      r.remaining = n - r.revealed.length ∧
      (r.skullHit = true →
        ∃ pre, r.revealed = pre ++ [CardType.skull] ∧
          ∀ c ∈ pre, c = CardType.rose) ∧
      (r.skullHit = false →
        (∀ c ∈ r.revealed, c = CardType.rose) ∧
        (r.remaining ≠ 0 → r.challenger.played_cards = [])) := by
  intro n
  induction n with
  | zero =>
    intro p _
    refine ⟨⟨p, 0, false, []⟩, rfl, ?_⟩
    simp
  | succ n ih =>
    intro p hInv
    cases hpc : p.played_cards with
    | nil =>
      refine ⟨⟨p, n + 1, false, []⟩, ?_, ?_⟩
      · simp only [revealOwn, hpc]
      · simp [hpc]
    | cons c rest =>
      have hchk : ¬((p.hand ++ [c]).length + rest.length
          + p.stats.challenges_lost ≠ 4) := by
        simp only [List.length_append, List.length_cons, List.length_nil]
        rw [hpc] at hInv
        simp only [List.length_cons] at hInv
        omega
      by_cases hc : c = CardType.skull
      · refine ⟨⟨{ p with hand := p.hand ++ [c], played_cards := rest },
          n, true, [c]⟩, ?_, ?_, ?_, ?_, ?_, ?_, ?_, ?_⟩
        · simp only [revealOwn, hpc]
          rw [if_neg hchk, if_pos hc]
        · simp [hpc]
        · simp
        · rfl
        · simp [hpc]
        · simp
        · intro _
          exact ⟨[], by simp [hc], by simp⟩
        · intro h
          exact absurd h (by simp)
      · have hcr : c = CardType.rose := by
          cases c
          · rfl
          · exact absurd rfl hc
        have hInv' : (p.hand ++ [c]).length + rest.length
            + p.stats.challenges_lost = 4 := by
          simp only [List.length_append, List.length_cons, List.length_nil]
          rw [hpc] at hInv
          simp only [List.length_cons] at hInv
          omega
        obtain ⟨r', hr', htake, hlen, hhand, hplayed, hrem, hskull, hnoskull⟩ :=
          ih { p with hand := p.hand ++ [c], played_cards := rest } hInv'
        refine ⟨⟨r'.challenger, r'.remaining, r'.skullHit, c :: r'.revealed⟩,
          ?_, ?_, ?_, ?_, ?_, ?_, ?_, ?_⟩
        · simp only [revealOwn, hpc]
          rw [if_neg hchk, if_neg hc, hr']
        · simp only [List.length_cons, hpc, List.take_succ_cons]
          exact congrArg (c :: ·) htake
        · simp only [List.length_cons]
          omega
        · simp only [hhand]
          simp
        · simp only [List.length_cons, hpc, List.drop_succ_cons]
          exact hplayed
        · simp only [List.length_cons]
          omega
        · intro hs
          obtain ⟨pre, hpre, hroses⟩ := hskull hs
          refine ⟨c :: pre, by simp [hpre], ?_⟩
          intro x hx
          rcases List.mem_cons.mp hx with h | h
          · rw [h, hcr]
          · exact hroses x h
        · intro hs
          obtain ⟨hroses, hstop⟩ := hnoskull hs
          refine ⟨?_, hstop⟩
          intro x hx
          rcases List.mem_cons.mp hx with h | h
          · rw [h, hcr]
          · exact hroses x h

/-- Full behaviour of the pass over the other players' stacks: at most `n`
    cards are revealed, the remaining count is decremented once per reveal,
    every reveal comes from an eligible player, a skull is always the final
    reveal and names its owner as skull revealer, without a skull only roses
    are revealed, and players outside the eligible list are untouched. -/
lemma revealOthers_spec : ∀ (n : Nat) (players : List Player) (eligible : List Nat)
    (pick : Nat → Nat) (step : Nat),
    (∀ j ∈ eligible, j < players.length) →
    ((revealOthers players eligible pick step n).revealed.length ≤ n) ∧
    ((revealOthers players eligible pick step n).remaining
       = n - (revealOthers players eligible pick step n).revealed.length) ∧
    (∀ e ∈ (revealOthers players eligible pick step n).revealed, e.1 ∈ eligible) ∧
    (∀ j, (revealOthers players eligible pick step n).skullRevealer = some j →
       ∃ pre, (revealOthers players eligible pick step n).revealed
           = pre ++ [(j, CardType.skull)] ∧ ∀ e ∈ pre, e.2 = CardType.rose) ∧
    ((revealOthers players eligible pick step n).skullRevealer = none →
       ∀ e ∈ (revealOthers players eligible pick step n).revealed,
         e.2 = CardType.rose) ∧
    (∀ j, j ∉ eligible →
       (revealOthers players eligible pick step n).players.getD j defaultPlayer
         = players.getD j defaultPlayer) := by
  intro n
  induction n with
  | zero =>
    intro players eligible pick step _
    refine ⟨?_, ?_, ?_, ?_, ?_, ?_⟩ <;> simp [revealOthers]
  | succ n ih =>
    intro players eligible pick step helig
    by_cases heli : eligible = []
    · simp only [revealOthers]
      rw [if_pos heli]
      refine ⟨?_, ?_, ?_, ?_, ?_, ?_⟩ <;> simp
    · have hlen0 : 0 < eligible.length :=
        List.length_pos.mpr heli
      have hti : eligible.getD (pick step % eligible.length) 0 ∈ eligible :=
        getD_mem _ (Nat.mod_lt _ hlen0)
      have htilt : eligible.getD (pick step % eligible.length) 0 < players.length :=
        helig _ hti
      cases htp : (players.getD (eligible.getD (pick step % eligible.length) 0)
          defaultPlayer).played_cards with
      | nil =>
        simp only [revealOthers]
        rw [if_neg heli]
        simp only [htp]
        refine ⟨?_, ?_, ?_, ?_, ?_, ?_⟩ <;> simp
      | cons c rest =>
        by_cases hc : c = CardType.skull
        · simp only [revealOthers]
          rw [if_neg heli]
          simp only [htp]
          rw [if_pos hc]
          refine ⟨by simp, by simp, ?_, ?_, ?_, ?_⟩
          · intro e he
            rw [List.mem_singleton.mp he]
            exact hti
          · intro j hj
            cases hj
            exact ⟨[], by simp [hc], by simp⟩
          · intro hj
            exact absurd hj (by simp)
          · intro j hj
            exact getD_set_ne _ _ _ (fun h => hj (h ▸ hti))
        · have hcr : c = CardType.rose := by
            cases c
            · rfl
            · exact absurd rfl hc
          have helig' : ∀ j ∈ (if rest = []
              then eligible.erase (eligible.getD (pick step % eligible.length) 0)
              else eligible),
              j < (players.set (eligible.getD (pick step % eligible.length) 0)
                { players.getD (eligible.getD (pick step % eligible.length) 0)
                    defaultPlayer with
                  hand := (players.getD (eligible.getD (pick step % eligible.length) 0)
                      defaultPlayer).hand ++ [c],
                  played_cards := rest }).length := by
            intro j hj
            rw [List.length_set]
            apply helig
            by_cases hr : rest = []
            · rw [if_pos hr] at hj
              exact List.mem_of_mem_erase hj
            · rw [if_neg hr] at hj
              exact hj
          have IH := ih
            (players.set (eligible.getD (pick step % eligible.length) 0)
              { players.getD (eligible.getD (pick step % eligible.length) 0)
                  defaultPlayer with
                hand := (players.getD (eligible.getD (pick step % eligible.length) 0)
                    defaultPlayer).hand ++ [c],
                played_cards := rest })
            (if rest = []
              then eligible.erase (eligible.getD (pick step % eligible.length) 0)
              else eligible)
            pick (step + 1) helig'
          obtain ⟨ih1, ih2, ih3, ih4, ih5, ih6⟩ := IH
          have hsubset : ∀ j, j ∈ (if rest = []
              then eligible.erase (eligible.getD (pick step % eligible.length) 0)
              else eligible) → j ∈ eligible := by
            intro j hj
            by_cases hr : rest = []
            · rw [if_pos hr] at hj
              exact List.mem_of_mem_erase hj
            · rw [if_neg hr] at hj
              exact hj
          simp only [revealOthers]
          rw [if_neg heli]
          simp only [htp]
          rw [if_neg hc]
          dsimp only
          dsimp only at ih1 ih2 ih3 ih4 ih5 ih6
          refine ⟨?_, ?_, ?_, ?_, ?_, ?_⟩
          · simp only [List.length_cons]
            omega
          · simp only [List.length_cons]
            omega
          · intro e he
            rcases List.mem_cons.mp he with h | h
            · rw [h]
              exact hti
            · exact hsubset _ (ih3 e h)
          · intro j hj
            obtain ⟨pre, hpre, hroses⟩ := ih4 j hj
            refine ⟨(eligible.getD (pick step % eligible.length) 0, c) :: pre,
              by rw [hpre]; rfl, ?_⟩
            intro x hx
            rcases List.mem_cons.mp hx with h | h
            · rw [h, hcr]
            · exact hroses x h
          · intro hj e he
            rcases List.mem_cons.mp he with h | h
            · rw [h, hcr]
            · exact ih5 hj e h
          · intro j hj
            rw [ih6 j (fun h => hj (hsubset j h))]
            exact getD_set_ne _ _ _ (fun h => hj (h ▸ hti))

lemma eligible_lt_and_ne (players1 : List Player) (ci j : Nat)
    (hj : j ∈ (List.range players1.length).filter
      (fun j => !(j == ci) && !(players1.getD j defaultPlayer).is_eliminated
                && !(players1.getD j defaultPlayer).played_cards.isEmpty)) :
    j < players1.length ∧ j ≠ ci := by
  rw [List.mem_filter, List.mem_range] at hj
  refine ⟨hj.1, ?_⟩
  have := hj.2
  simp only [Bool.and_eq_true, Bool.not_eq_true', beq_eq_false_iff_ne] at this
  exact this.1.1

lemma takeWhile_all_of {α : Type} (p : α → Bool) : ∀ (A : List α),
    (∀ a ∈ A, p a = true) →
    A.takeWhile p = A ∧ A.dropWhile p = [] := by
  intro A
  induction A with
  | nil => intro _; exact ⟨rfl, rfl⟩
  | cons a A' ih =>
    intro hA
    have ha := hA a (by simp)
    obtain ⟨h1, h2⟩ := ih (fun x hx => hA x (by simp [hx]))
    constructor
    · simp [List.takeWhile_cons, ha, h1]
    · simp [List.dropWhile_cons, ha, h2]

lemma takeWhile_append_of {α : Type} (p : α → Bool) : ∀ (A B : List α),
    (∀ a ∈ A, p a = true) → (∀ b, B.head? = some b → p b = false) →
    (A ++ B).takeWhile p = A ∧ (A ++ B).dropWhile p = B := by
  intro A
  induction A with
  | nil =>
    intro B _ hB
    cases B with
    | nil => exact ⟨rfl, rfl⟩
    | cons b B' =>
      have hb := hB b rfl
      constructor
      · simp [List.takeWhile_cons, hb]
      · simp [List.dropWhile_cons, hb]
  | cons a A' ih =>
    intro B hA hB
    have ha := hA a (by simp)
    obtain ⟨h1, h2⟩ := ih B (fun x hx => hA x (by simp [hx])) hB
    constructor
    · simp only [List.cons_append, List.takeWhile_cons, ha]
      simp [h1]
    · simp only [List.cons_append, List.dropWhile_cons, ha]
      simp [h2]

/-- Claim C1: during challenge resolution with bid `currentBid`, the number
    of cards revealed (each moved from a played stack back into its owner's
    hand) never exceeds the bid, and a skull is always the very last card
    revealed - its owner (the challenger for the own stack, otherwise the
    other player whose stack yielded it) becomes the skull revealer and no
    further card is revealed after it. -/
theorem C1_challenge_reveal_bound (g : Game) (ci : Nat) (pick : Nat → Nat)
    (res : ResolveResult)
    (hInv : (g.players.getD ci defaultPlayer).hand.length
        + (g.players.getD ci defaultPlayer).played_cards.length
        + (g.players.getD ci defaultPlayer).stats.challenges_lost = 4)
    (hres : resolveChallenge g ci pick = .ok res) :
    res.revealed.length ≤ g.current_bid ∧
    (∀ j, res.skullRevealer = some j →
      ∃ pre, res.revealed = pre ++ [(j, CardType.skull)] ∧
        ∀ e ∈ pre, e.2 = CardType.rose) ∧
    (res.skullRevealer = none → ∀ e ∈ res.revealed, e.2 = CardType.rose) := by
  obtain ⟨own, hr', htake, hlen, hhand, hplayed, hrem, hskull, hnoskull⟩ :=
    revealOwn_spec g.current_bid (g.players.getD ci defaultPlayer) hInv
  unfold resolveChallenge at hres
  rw [hr'] at hres
  dsimp only at hres
  split at hres
  · next hsk =>
    injection hres with hres'
    subst hres'
    refine ⟨by simpa using hlen, ?_, ?_⟩
    · intro j hj
      dsimp only at hj
      injection hj with hj'
      subst hj'
      obtain ⟨pre, hpre, hroses⟩ := hskull hsk
      refine ⟨pre.map (fun c => (ci, c)), by simp [hpre], ?_⟩
      intro e he
      obtain ⟨c, hcmem, hce⟩ := List.mem_map.mp he
      rw [← hce]
      exact hroses c hcmem
    · intro hnone
      exact absurd hnone (by simp)
  · next hsk =>
    have hsk' : own.skullHit = false := by
      simpa using hsk
    have helig : ∀ j ∈ (List.range (g.players.set ci own.challenger).length).filter
        (fun j => !(j == ci)
          && !((g.players.set ci own.challenger).getD j defaultPlayer).is_eliminated
          && !((g.players.set ci own.challenger).getD j
                defaultPlayer).played_cards.isEmpty),
        j < (g.players.set ci own.challenger).length := by
      intro j hj
      exact (eligible_lt_and_ne _ ci j hj).1
    obtain ⟨ih1, ih2, ih3, ih4, ih5, ih6⟩ :=
      revealOthers_spec own.remaining (g.players.set ci own.challenger)
        ((List.range (g.players.set ci own.challenger).length).filter
          (fun j => !(j == ci)
            && !((g.players.set ci own.challenger).getD j defaultPlayer).is_eliminated
            && !((g.players.set ci own.challenger).getD j
                  defaultPlayer).played_cards.isEmpty))
        pick 0 helig
    injection hres with hres'
    subst hres'
    dsimp only at ih1 ih2 ih3 ih4 ih5 ih6 ⊢
    refine ⟨?_, ?_, ?_⟩
    · simp only [List.length_append, List.length_map]
      omega
    · intro j hj
      obtain ⟨pre2, hpre2, hroses2⟩ := ih4 j hj
      refine ⟨own.revealed.map (fun c => (ci, c)) ++ pre2,
        by rw [hpre2, List.append_assoc], ?_⟩
      intro e he
      rcases List.mem_append.mp he with h | h
      · obtain ⟨c, hcmem, hce⟩ := List.mem_map.mp h
        rw [← hce]
        exact (hnoskull hsk').1 c hcmem
      · exact hroses2 e h
    · intro hnone e he
      rcases List.mem_append.mp he with h | h
      · obtain ⟨c, hcmem, hce⟩ := List.mem_map.mp h
        rw [← hce]
        exact (hnoskull hsk').1 c hcmem
      · exact ih5 hnone e h

/-- Witness game for C1: the challenger's stack is Rose on top of Skull on
    top of Rose, with bid 3, so the resolution reveals Rose then stops at the
    Skull after two reveals. -/
def c1Game : Game :=
  { players := [
      { (mkPlayer "A" false) with
        hand := [CardType.rose],
        played_cards := [CardType.rose, CardType.skull, CardType.rose] },
      mkPlayer "B" true],
    current_player_index := 0, game_state := .challenge, current_bid := 3,
    challenger := some 0, skull_revealer := none, round_number := 1,
    game_stats := ⟨0, 1, 0, 0⟩ }

/-- Witness for C1: at most `currentBid` cards are revealed at the concrete
    game `c1Game`. -/
theorem C1_challenge_reveal_bound_witness :
    ((resolveChallenge c1Game 0 (fun _ => 0)).toOption.getD
        ⟨[], 0, none, []⟩).revealed.length ≤ c1Game.current_bid :=
  (C1_challenge_reveal_bound c1Game 0 (fun _ => 0) _
    (by decide) rfl).1

/-- Claim C2: challenge resolution reveals the challenger's own stack first
    and exclusively - the reveal trace is a block of challenger-owned reveals
    followed only by reveals owned by other players - in LIFO order: the
    challenger block is a prefix of the (top-first) stack, each revealed card
    moving from the stack into the challenger's hand; reveals from other
    players happen only after the challenger's stack is exhausted and only
    while the bid is not yet satisfied. -/
theorem C2_reveal_order (g : Game) (ci : Nat) (pick : Nat → Nat)
    (res : ResolveResult)
    (hInv : (g.players.getD ci defaultPlayer).hand.length
        + (g.players.getD ci defaultPlayer).played_cards.length
        + (g.players.getD ci defaultPlayer).stats.challenges_lost = 4)
    (hci : ci < g.players.length)
    (hres : resolveChallenge g ci pick = .ok res) :
    (∀ e ∈ res.revealed.takeWhile (fun e => e.1 == ci), e.1 = ci) ∧
    (∀ e ∈ res.revealed.dropWhile (fun e => e.1 == ci), e.1 ≠ ci) ∧
    ((res.revealed.takeWhile (fun e => e.1 == ci)).map Prod.snd
      = (g.players.getD ci defaultPlayer).played_cards.take
          ((res.revealed.takeWhile (fun e => e.1 == ci)).map Prod.snd).length) ∧
    ((res.players.getD ci defaultPlayer).hand
      = (g.players.getD ci defaultPlayer).hand
          ++ (res.revealed.takeWhile (fun e => e.1 == ci)).map Prod.snd) ∧
    ((res.players.getD ci defaultPlayer).played_cards
      = (g.players.getD ci defaultPlayer).played_cards.drop
          ((res.revealed.takeWhile (fun e => e.1 == ci)).map Prod.snd).length) ∧
    (res.revealed.dropWhile (fun e => e.1 == ci) ≠ [] →
      (g.players.getD ci defaultPlayer).played_cards.length
          = ((res.revealed.takeWhile (fun e => e.1 == ci)).map Prod.snd).length ∧
      ((res.revealed.takeWhile (fun e => e.1 == ci)).map Prod.snd).length
          < g.current_bid) := by
  obtain ⟨own, hr', htake, hlen, hhand, hplayed, hrem, hskull, hnoskull⟩ :=
    revealOwn_spec g.current_bid (g.players.getD ci defaultPlayer) hInv
  have hallci : ∀ e ∈ own.revealed.map (fun c => (ci, c)),
      (fun (e : Nat × CardType) => e.1 == ci) e = true := by
    intro e he
    obtain ⟨c, _, hce⟩ := List.mem_map.mp he
    rw [← hce]
    simp
  unfold resolveChallenge at hres
  rw [hr'] at hres
  dsimp only at hres
  split at hres
  · next hsk =>
    injection hres with hres'
    subst hres'
    dsimp only
    obtain ⟨htw, hdw⟩ :=
      takeWhile_all_of (fun (e : Nat × CardType) => e.1 == ci)
        (own.revealed.map (fun c => (ci, c))) hallci
    rw [htw, hdw]
    refine ⟨?_, by simp, ?_, ?_, ?_, by simp⟩
    · intro e he
      obtain ⟨c, _, hce⟩ := List.mem_map.mp he
      rw [← hce]
    · simp only [List.map_map]
      simpa using htake
    · rw [getD_set_self _ _ _ _ hci]
      simp only [List.map_map]
      simpa using hhand
    · rw [getD_set_self _ _ _ _ hci]
      simp only [List.map_map]
      simpa using hplayed
  · next hsk =>
    have hsk' : own.skullHit = false := by
      simpa using hsk
    have helig : ∀ j ∈ (List.range (g.players.set ci own.challenger).length).filter
        (fun j => !(j == ci)
          && !((g.players.set ci own.challenger).getD j defaultPlayer).is_eliminated
          && !((g.players.set ci own.challenger).getD j
                defaultPlayer).played_cards.isEmpty),
        j < (g.players.set ci own.challenger).length := by
      intro j hj
      exact (eligible_lt_and_ne _ ci j hj).1
    obtain ⟨ih1, ih2, ih3, ih4, ih5, ih6⟩ :=
      revealOthers_spec own.remaining (g.players.set ci own.challenger)
        ((List.range (g.players.set ci own.challenger).length).filter
          (fun j => !(j == ci)
            && !((g.players.set ci own.challenger).getD j defaultPlayer).is_eliminated
            && !((g.players.set ci own.challenger).getD j
                  defaultPlayer).played_cards.isEmpty))
        pick 0 helig
    injection hres with hres'
    subst hres'
    dsimp only at ih1 ih2 ih3 ih4 ih5 ih6 ⊢
    have hothers_ne : ∀ e, e ∈ (revealOthers (g.players.set ci own.challenger)
        ((List.range (g.players.set ci own.challenger).length).filter
          (fun j => !(j == ci)
            && !((g.players.set ci own.challenger).getD j defaultPlayer).is_eliminated
            && !((g.players.set ci own.challenger).getD j
                  defaultPlayer).played_cards.isEmpty))
        pick 0 own.remaining).revealed → e.1 ≠ ci := by
      intro e he
      exact (eligible_lt_and_ne _ ci e.1 (ih3 e he)).2
    have hB : ∀ b, ((revealOthers (g.players.set ci own.challenger)
        ((List.range (g.players.set ci own.challenger).length).filter
          (fun j => !(j == ci)
            && !((g.players.set ci own.challenger).getD j defaultPlayer).is_eliminated
            && !((g.players.set ci own.challenger).getD j
                  defaultPlayer).played_cards.isEmpty))
        pick 0 own.remaining).revealed).head? = some b →
        (fun (e : Nat × CardType) => e.1 == ci) b = false := by
      intro b hb
      have hbmem : b ∈ (revealOthers (g.players.set ci own.challenger)
          ((List.range (g.players.set ci own.challenger).length).filter
            (fun j => !(j == ci)
              && !((g.players.set ci own.challenger).getD j defaultPlayer).is_eliminated
              && !((g.players.set ci own.challenger).getD j
                    defaultPlayer).played_cards.isEmpty))
          pick 0 own.remaining).revealed := by
        apply List.mem_of_mem_head?
        rw [hb]
        rfl
      simp only [beq_eq_false_iff_ne]
      exact hothers_ne b hbmem
    obtain ⟨htw, hdw⟩ :=
      takeWhile_append_of (fun (e : Nat × CardType) => e.1 == ci)
        (own.revealed.map (fun c => (ci, c))) _ hallci hB
    rw [htw, hdw]
    have hcinel : ci ∉ (List.range (g.players.set ci own.challenger).length).filter
        (fun j => !(j == ci)
          && !((g.players.set ci own.challenger).getD j defaultPlayer).is_eliminated
          && !((g.players.set ci own.challenger).getD j
                defaultPlayer).played_cards.isEmpty) := by
      intro h
      exact (eligible_lt_and_ne _ ci ci h).2 rfl
    refine ⟨?_, hothers_ne, ?_, ?_, ?_, ?_⟩
    · intro e he
      obtain ⟨c, _, hce⟩ := List.mem_map.mp he
      rw [← hce]
    · simp only [List.map_map]
      simpa using htake
    · rw [ih6 ci hcinel, getD_set_self _ _ _ _ hci]
      simp only [List.map_map]
      simpa using hhand
    · rw [ih6 ci hcinel, getD_set_self _ _ _ _ hci]
      simp only [List.map_map]
      simpa using hplayed
    · intro hne
      have hlen2 : 0 < (revealOthers (g.players.set ci own.challenger)
          ((List.range (g.players.set ci own.challenger).length).filter
            (fun j => !(j == ci)
              && !((g.players.set ci own.challenger).getD j defaultPlayer).is_eliminated
              && !((g.players.set ci own.challenger).getD j
                    defaultPlayer).played_cards.isEmpty))
          pick 0 own.remaining).revealed.length :=
        List.length_pos.mpr hne
      have hremnz : own.remaining ≠ 0 := by
        intro h0
        omega
      have hempty : own.challenger.played_cards = [] :=
        (hnoskull hsk').2 hremnz
      rw [hplayed] at hempty
      have hle : (g.players.getD ci defaultPlayer).played_cards.length
          ≤ own.revealed.length := List.drop_eq_nil_iff.mp hempty
      have hge : own.revealed.length
          ≤ (g.players.getD ci defaultPlayer).played_cards.length := by
        have := congrArg List.length htake
        rw [List.length_take] at this
        omega
      constructor
      · simp only [List.map_map]
        simp only [List.length_map]
        omega
      · simp only [List.map_map, List.length_map]
        omega

/-- Witness game for C2: the challenger's stack holds a single Rose, the bid
    is 2, so after exhausting the own stack one more card is revealed from
    the other player. -/
def c2Game : Game :=
  { players := [
      { (mkPlayer "A" false) with
        hand := [CardType.rose, CardType.rose],
        played_cards := [CardType.rose],
        stats := ⟨0, 1, 1, 0, 0⟩ },
      { (mkPlayer "B" true) with
        hand := [CardType.rose, CardType.rose, CardType.rose],
        played_cards := [CardType.rose] }],
    current_player_index := 0, game_state := .challenge, current_bid := 2,
    challenger := some 0, skull_revealer := none, round_number := 2,
    game_stats := ⟨1, 1, 0, 0⟩ }

/-- Witness for C2: at the concrete game `c2Game` the challenger's own
    revealed cards all return to their hand. -/
theorem C2_reveal_order_witness :
    (((resolveChallenge c2Game 0 (fun _ => 0)).toOption.getD
        ⟨[], 0, none, []⟩).players.getD 0 defaultPlayer).hand
      = (c2Game.players.getD 0 defaultPlayer).hand
          ++ ((((resolveChallenge c2Game 0 (fun _ => 0)).toOption.getD
              ⟨[], 0, none, []⟩).revealed.takeWhile
                (fun e => e.1 == 0)).map Prod.snd) :=
  (C2_reveal_order c2Game 0 (fun _ => 0) _
    (by decide) (by decide) rfl).2.2.2.1

end Skull
